import Mathlib

/-!
Verification of the `memory.lol` ingestion pipeline (`src/bin/manage.rs`).

The multi-date CSV import path, the timestamp-to-date conversion, and the
lookup rendering are embedded directly from the source.  The persistent
store and the batch `Session` live in the `memory_lol` library crate, which
is not part of this tree; those two operations are modelled from the
specification and marked as such in their doc comments.
-/

/-- Rust `line.split(',')` on a list of characters: the empty input yields one
empty field, and every comma separates two (possibly empty) fields. -/
def splitFields : List Char → List (List Char)
  | [] => [[]]
  | c :: rest =>
    match splitFields rest with
    | [] => [[]]
    | f :: fs => if c = ',' then [] :: f :: fs else (c :: f) :: fs

/-- ASCII decimal digit test, as Rust's integer `FromStr` accepts. -/
def isAsciiDigit (c : Char) : Bool := 48 ≤ c.toNat && c.toNat ≤ 57

/-- Value of a string of decimal digits, most significant first. -/
def digitsVal (cs : List Char) : Nat :=
  cs.foldl (fun acc c => acc * 10 + (c.toNat - 48)) 0

/-- Parses a non-empty all-digit string to its value, as the digits part of
Rust's integer `FromStr`. -/
def parseDigits (cs : List Char) : Option Nat :=
  if cs ≠ [] ∧ cs.all isAsciiDigit then some (digitsVal cs) else none

/-- Rust `str::parse::<u64>()`: an optional leading `+`, then one or more
decimal digits, value below `2 ^ 64`. -/
def parseU64 (cs : List Char) : Option Nat :=
  match cs with
  | '+' :: rest =>
    match parseDigits rest with
    | some n => if n < 2 ^ 64 then some n else none
    | none => none
  | _ =>
    match parseDigits cs with
    | some n => if n < 2 ^ 64 then some n else none
    | none => none

/-- Rust `str::parse::<i64>()`: an optional sign, then one or more decimal
digits, value within the signed 64-bit range. -/
def parseI64 (cs : List Char) : Option Int :=
  match cs with
  | '-' :: rest =>
    match parseDigits rest with
    | some n => if (n : Int) ≤ 2 ^ 63 then some (-(n : Int)) else none
    | none => none
  | '+' :: rest =>
    match parseDigits rest with
    | some n => if (n : Int) < 2 ^ 63 then some (n : Int) else none
    | none => none
  | _ =>
    match parseDigits cs with
    | some n => if (n : Int) < 2 ^ 63 then some (n : Int) else none
    | none => none

/-- `Utc.timestamp(value, 0).naive_utc().date()` represented as the day number
since 1970-01-01: seconds are floor-divided by 86400, so negative timestamps
fall on days before the epoch. -/
def timestampToDate (value : Int) : Int := Int.fdiv value 86400

/-- Rust `Vec::dedup`: removes consecutive repeated elements. -/
def dedup : List Int → List Int
  | [] => []
  | [a] => [a]
  | a :: b :: rest => if a = b then dedup (b :: rest) else a :: dedup (b :: rest)

/-- One canonical record: the arguments of a `db.insert_pair` call. -/
structure PairRecord where
  user_id : Nat
  screen_name : String
  dates : List Int
deriving DecidableEq

/-- The timestamp loop of the `ImportMulti` arm: each remaining field must
parse as an `i64` and is converted to a date; the first failure rejects the
whole line. -/
def parseTimestamps : List (List Char) → Option (List Int)
  | [] => some []
  | p :: ps =>
    match parseI64 p with
    | none => none
    | some v =>
      match parseTimestamps ps with
      | none => none
      | some ds => some (timestampToDate v :: ds)

/-- The body of the `ImportMulti` loop for one line: split on commas, parse
field 0 as `u64`, take field 1 as the name, parse the remaining fields as
timestamps, then sort and deduplicate the dates.  Every failure carries the
raw line (`Error::InvalidImportLine`). -/
def parseMultiLine (line : List Char) : Except (List Char) PairRecord :=
  match ((splitFields line)[0]?).bind parseU64 with
  | none => .error line
  | some user_id =>
    match (splitFields line)[1]? with
    | none => .error line
    | some screen_name =>
      match parseTimestamps ((splitFields line).drop 2) with
      | none => .error line
      | some dates =>
        .ok ⟨user_id, String.mk screen_name, dedup (List.insertionSort (· ≤ ·) dates)⟩

/-- The `ImportMulti` command: lines are processed in order; each successful
parse immediately performs a `db.insert_pair` call (collected here as the
first component), and the first failing line aborts the loop with its error
(the second component). -/
def importMulti : List (List Char) → List PairRecord × Option (List Char)
  | [] => ([], none)
  | l :: ls =>
    match parseMultiLine l with
    | .error e => ([], some e)
    | .ok r => (r :: (importMulti ls).1, (importMulti ls).2)

/-- The store's state, viewed through the interface the pipeline requires of
it: the date set held for each (identifier, name) pair. -/
def Store : Type := Nat × String → List Int

/-- The merge policy selector passed to `Session::update`. -/
inductive UpdateMode
  | Range

/-- Modelled from the spec: `Lookup::insert_pair` (in the `memory_lol` library
crate, not under `src/`) durably merges the submitted dates into the date set
already stored for the (identifier, name) pair; under `Range` mode the result
is the union of the old set and the submitted dates, kept sorted without
duplicates — never a replacement. -/
def insert_pair (db : Store) (user_id : Nat) (screen_name : String)
    (dates : List Int) (mode : UpdateMode) : Store :=
  match mode with
  | .Range => fun k =>
      if k = (user_id, screen_name) then
        dedup (List.insertionSort (· ≤ ·) (db (user_id, screen_name) ++ dates))
      else db k

/-- A session: the in-memory batch of canonical records built from one input. -/
abbrev Session : Type := List PairRecord

/-- Modelled from the spec: `Session::update` (in the `memory_lol` library
crate, not under `src/`) iterates the session's records in order, invoking the
store's merge-insert for each with the given mode, and returns the number of
records submitted. -/
def Session.update (session : Session) (db : Store) (mode : UpdateMode) :
    Store × Nat :=
  (session.foldl (fun st r => insert_pair st r.user_id r.screen_name r.dates mode) db,
   session.length)

/-- Gregorian calendar date (year, month, day) of a day number counted from
1970-01-01, as chrono's `NaiveDate` understands it. -/
def civilFromDays (z : Int) : Int × Nat × Nat :=
  let zs := z + 719468
  let era := Int.fdiv zs 146097
  let doe := (zs - era * 146097).toNat
  let yoe := (doe - doe / 1460 + doe / 36524 - doe / 146096) / 365
  let y := (yoe : Int) + era * 400
  let doy := doe - (365 * yoe + yoe / 4 - yoe / 100)
  let mp := (5 * doy + 2) / 153
  let d := doy - (153 * mp + 2) / 5 + 1
  let m := if mp < 10 then mp + 3 else mp - 9
  (if m ≤ 2 then y + 1 else y, m, d)

/-- Left-pads a string with zeros to the given width. -/
def padTo (w : Nat) (s : String) : String :=
  String.mk (List.replicate (w - s.length) '0') ++ s

/-- chrono's `NaiveDate` `Display`: ISO `YYYY-MM-DD`. -/
def dateToString (d : Int) : String :=
  let c := civilFromDays d
  let ys := if c.1 < 0 then "-" ++ padTo 4 (toString (-c.1)) else padTo 4 (toString c.1)
  ys ++ "-" ++ padTo 2 (toString c.2.1) ++ "-" ++ padTo 2 (toString c.2.2)

/-- The sort key of the `LookupId` arm: `sort_by_key(|(screen_name, _)| ...)`,
comparing screen names by their text value. -/
def byName (a b : String × List Int) : Prop := a.1 ≤ b.1

instance : DecidableRel byName := fun a b => inferInstanceAs (Decidable (a.1 ≤ b.1))

instance : IsTotal (String × List Int) byName := ⟨fun a b => le_total a.1 b.1⟩

instance : IsTrans (String × List Int) byName := ⟨fun _ _ _ h1 h2 => le_trans h1 h2⟩

/-- The `LookupId` reporting path: sorts the lookup result by screen name and
renders each entry as the name together with its dates joined by a comma and a
space. -/
def renderLookup (result : List (String × List Int)) : List (String × String) :=
  (List.insertionSort byName result).map
    fun p => (p.1, String.intercalate ", " (p.2.map dateToString))

/-! ### Lemmas about `dedup` and sorting -/

theorem dedup_cons_cons (a b : Int) (rest : List Int) :
    dedup (a :: b :: rest) =
      if a = b then dedup (b :: rest) else a :: dedup (b :: rest) := rfl

theorem mem_dedup (a : Int) : ∀ l : List Int, a ∈ dedup l ↔ a ∈ l
  | [] => Iff.rfl
  | [b] => Iff.rfl
  | b :: c :: rest => by
    have ih := mem_dedup a (c :: rest)
    rw [dedup_cons_cons]
    by_cases h : b = c
    · rw [if_pos h, ih]
      subst h
      simp only [List.mem_cons]
      tauto
    · rw [if_neg h]
      simp only [List.mem_cons, ih]

theorem sorted_lt_dedup : ∀ l : List Int, l.Sorted (· ≤ ·) → (dedup l).Sorted (· < ·)
  | [], _ => List.sorted_nil
  | [a], _ => List.sorted_singleton a
  | a :: b :: rest, h => by
    have htail : (b :: rest).Sorted (· ≤ ·) := h.of_cons
    rw [dedup_cons_cons]
    by_cases hab : a = b
    · rw [if_pos hab]
      exact sorted_lt_dedup (b :: rest) htail
    · have hrec := sorted_lt_dedup (b :: rest) htail
      rw [if_neg hab]
      refine List.sorted_cons.2 ⟨?_, hrec⟩
      intro x hx
      have hxmem : x ∈ b :: rest := (mem_dedup x (b :: rest)).1 hx
      have hab' : a ≤ b := (List.sorted_cons.1 h).1 b (by simp)
      have halt : a < b := lt_of_le_of_ne hab' hab
      rcases List.mem_cons.1 hxmem with rfl | hxr
      · exact halt
      · exact lt_of_lt_of_le halt ((List.sorted_cons.1 htail).1 x hxr)

theorem sorted_lt_sortDedup (l : List Int) :
    (dedup (List.insertionSort (· ≤ ·) l)).Sorted (· < ·) :=
  sorted_lt_dedup _ (List.sorted_insertionSort _ l)

/-! ### Lemmas about `splitFields` -/

theorem splitFields_cons (c : Char) (rest : List Char) :
    splitFields (c :: rest) =
      match splitFields rest with
      | [] => [[]]
      | f :: fs => if c = ',' then [] :: f :: fs else (c :: f) :: fs := rfl

theorem splitFields_ne_nil : ∀ cs : List Char, splitFields cs ≠ []
  | [] => by simp [splitFields]
  | c :: rest => by
    have ih := splitFields_ne_nil rest
    rw [splitFields_cons]
    rcases h : splitFields rest with _ | ⟨f, fs⟩
    · exact absurd h ih
    · dsimp only
      split <;> simp

theorem splitFields_comma_cons (rest : List Char) :
    splitFields (',' :: rest) = [] :: splitFields rest := by
  rw [splitFields_cons]
  rcases h : splitFields rest with _ | ⟨f, fs⟩
  · exact absurd h (splitFields_ne_nil rest)
  · simp

theorem splitFields_no_comma_cons (c : Char) (rest : List Char) (hc : c ≠ ',') :
    splitFields (c :: rest) =
      (c :: (splitFields rest).headI) :: (splitFields rest).tail := by
  rw [splitFields_cons]
  rcases h : splitFields rest with _ | ⟨f, fs⟩
  · exact absurd h (splitFields_ne_nil rest)
  · simp [hc]

theorem splitFields_no_comma_append (cs rest : List Char) (h : ',' ∉ cs) :
    splitFields (cs ++ ',' :: rest) = cs :: splitFields rest := by
  induction cs with
  | nil => simpa using splitFields_comma_cons rest
  | cons c cs ih =>
    have hc : c ≠ ',' := fun he => h (he ▸ List.mem_cons_self c cs)
    have hcs : ',' ∉ cs := fun hm => h (List.mem_cons_of_mem c hm)
    rw [List.cons_append, splitFields_no_comma_cons c _ hc, ih hcs]
    simp

theorem splitFields_no_comma (cs : List Char) (h : ',' ∉ cs) :
    splitFields cs = [cs] := by
  induction cs with
  | nil => rfl
  | cons c cs ih =>
    have hc : c ≠ ',' := fun he => h (he ▸ List.mem_cons_self c cs)
    have hcs : ',' ∉ cs := fun hm => h (List.mem_cons_of_mem c hm)
    rw [splitFields_no_comma_cons c _ hc, ih hcs]
    simp

/-! ### Lemmas about the line parser -/

theorem parseTimestamps_none (ps : List (List Char)) (p : List Char)
    (hp : p ∈ ps) (hn : parseI64 p = none) : parseTimestamps ps = none := by
  induction ps with
  | nil => cases hp
  | cons q qs ih =>
    rcases List.mem_cons.1 hp with rfl | hmem
    · simp [parseTimestamps, hn]
    · unfold parseTimestamps
      rcases hq : parseI64 q with _ | v
      · rfl
      · rw [ih hmem]

theorem parseMultiLine_ok_or_error (line : List Char) :
    (∃ r, parseMultiLine line = .ok r) ∨ parseMultiLine line = .error line := by
  unfold parseMultiLine
  rcases h0 : ((splitFields line)[0]?).bind parseU64 with _ | uid
  · exact Or.inr rfl
  · rcases h1 : (splitFields line)[1]? with _ | name
    · exact Or.inr rfl
    · rcases h2 : parseTimestamps ((splitFields line).drop 2) with _ | ds
      · exact Or.inr rfl
      · exact Or.inl ⟨_, rfl⟩

theorem parse_two_fields (idCs name : List Char) (uid : Nat)
    (hid : parseU64 idCs = some uid) (h1 : ',' ∉ idCs) (h2 : ',' ∉ name) :
    parseMultiLine (idCs ++ ',' :: name) = .ok ⟨uid, String.mk name, []⟩ := by
  have hsf : splitFields (idCs ++ ',' :: name) = [idCs, name] := by
    rw [splitFields_no_comma_append idCs name h1, splitFields_no_comma name h2]
  unfold parseMultiLine
  rw [hsf]
  simp [hid, parseTimestamps, dedup]

/-! ### Claims about the multi-date line parser -/

/-- Claim C2 counterexample: the line `42,,100` has an empty second field, yet
it is accepted and produces a pair record whose DisplayName is the empty
string — the code never rejects an empty name. -/
theorem empty_name_accepted_counterexample :
    parseMultiLine (String.data "42,,100") = .ok ⟨42, "", [0]⟩ := rfl

/-- Claim C2 (amended): a multi-date line whose second comma-separated field is
the empty string is not rejected; a line `id,` with a valid identifier yields
the pair record with an empty DisplayName (and an empty date set). -/
theorem parse_accepts_empty_name (idCs : List Char) (uid : Nat)
    (hid : parseU64 idCs = some uid) (hc : ',' ∉ idCs) :
    parseMultiLine (idCs ++ [',']) = .ok ⟨uid, "", []⟩ := by
  have h := parse_two_fields idCs [] uid hid hc (by simp)
  simpa using h

/-- Claim C2 witness: the amended statement at the concrete line `42,`. -/
theorem parse_accepts_empty_name_witness :
    parseMultiLine (String.data "42,") = .ok ⟨42, "", []⟩ := by
  have h := parse_accepts_empty_name (String.data "42") 42 rfl (by decide)
  simpa using h

/-- Claim C3: for every valid multi-date line, the date list stored in the
resulting record — the list handed to `insert_pair` — is sorted ascending and
contains no duplicate dates. -/
theorem parse_dates_sorted_nodup (line : List Char) (r : PairRecord)
    (h : parseMultiLine line = .ok r) :
    r.dates.Sorted (· ≤ ·) ∧ r.dates.Nodup := by
  have hs : r.dates.Sorted (· < ·) := by
    unfold parseMultiLine at h
    rcases h0 : ((splitFields line)[0]?).bind parseU64 with _ | uid <;> rw [h0] at h
    · cases h
    · rcases h1 : (splitFields line)[1]? with _ | name <;> rw [h1] at h
      · cases h
      · rcases h2 : parseTimestamps ((splitFields line).drop 2) with _ | ds <;> rw [h2] at h
        · cases h
        · have hr := Except.ok.inj h
          subst hr
          exact sorted_lt_sortDedup ds
  exact ⟨hs.imp le_of_lt, hs.nodup⟩

/-- Claim C3 witness: the out-of-order, duplicated line `7,bob,172800,0,0`. -/
theorem parse_dates_sorted_nodup_witness :
    ([0, 2] : List Int).Sorted (· ≤ ·) ∧ ([0, 2] : List Int).Nodup :=
  parse_dates_sorted_nodup (String.data "7,bob,172800,0,0") ⟨7, "bob", [0, 2]⟩ rfl

/-- Claim C5: each timestamp is interpreted as seconds since the Unix epoch in
UTC and truncated to a calendar date; the line `42,alice,0,86400,172800`
yields the pair (42, alice) with exactly the days 1970-01-01, 1970-01-02 and
1970-01-03. -/
theorem example_line_utc_dates :
    parseMultiLine (String.data "42,alice,0,86400,172800") =
        .ok ⟨42, "alice", [0, 1, 2]⟩ ∧
    timestampToDate 0 = 0 ∧ timestampToDate 86400 = 1 ∧ timestampToDate 172800 = 2 ∧
    civilFromDays 0 = (1970, 1, 1) ∧ civilFromDays 1 = (1970, 1, 2) ∧
    civilFromDays 2 = (1970, 1, 3) :=
  ⟨rfl, rfl, rfl, rfl, rfl, rfl, rfl⟩

/-- Claim C6: a non-integer timestamp anywhere in a multi-date line makes the
whole line fail with the malformed-line error, and no `insert_pair` call is
made for it — no partial date set reaches the store. -/
theorem bad_timestamp_rejects_line (line : List Char)
    (h : ∃ p ∈ (splitFields line).drop 2, parseI64 p = none) :
    parseMultiLine line = .error line ∧ importMulti [line] = ([], some line) := by
  obtain ⟨p, hp, hnone⟩ := h
  have hts := parseTimestamps_none _ p hp hnone
  have hmain : parseMultiLine line = .error line := by
    unfold parseMultiLine
    rw [hts]
    rcases h0 : ((splitFields line)[0]?).bind parseU64 with _ | uid
    · rfl
    · rcases h1 : (splitFields line)[1]? with _ | name
      · rfl
      · rfl
  refine ⟨hmain, ?_⟩
  unfold importMulti
  rw [hmain]

/-- Claim C6 witness: the line `1,a,5,xyz` has one valid timestamp before the
invalid one, and still nothing is inserted. -/
theorem bad_timestamp_rejects_line_witness :
    parseMultiLine (String.data "1,a,5,xyz") = .error (String.data "1,a,5,xyz") ∧
    importMulti [String.data "1,a,5,xyz"] = ([], some (String.data "1,a,5,xyz")) :=
  bad_timestamp_rejects_line (String.data "1,a,5,xyz") (by decide)

/-- Claim C7: a line with fewer than two comma-separated fields, or whose first
field does not parse as an unsigned 64-bit integer, fails with the
malformed-line error carrying that exact line. -/
theorem short_or_bad_id_error (line : List Char)
    (h : (splitFields line).length < 2 ∨
      ((splitFields line)[0]?).bind parseU64 = none) :
    parseMultiLine line = .error line := by
  rcases h with hlen | hid
  · have h1 : (splitFields line)[1]? = none :=
      List.getElem?_eq_none (by omega)
    unfold parseMultiLine
    rw [h1]
    rcases h0 : ((splitFields line)[0]?).bind parseU64 with _ | uid
    · rfl
    · rfl
  · unfold parseMultiLine
    rw [hid]

/-- Claim C7 witness: the single-field line `42` is rejected and the error
carries the line itself. -/
theorem short_or_bad_id_error_witness :
    parseMultiLine (String.data "42") = .error (String.data "42") :=
  short_or_bad_id_error (String.data "42") (Or.inl (by decide))

/-- Claim C8: a line with exactly two fields (valid identifier and a name,
no timestamps) is accepted, and it produces one `insert_pair` call carrying an
empty date set. -/
theorem two_field_line_accepted (idCs name : List Char) (uid : Nat)
    (hid : parseU64 idCs = some uid) (h1 : ',' ∉ idCs) (h2 : ',' ∉ name) :
    parseMultiLine (idCs ++ ',' :: name) = .ok ⟨uid, String.mk name, []⟩ ∧
    importMulti [idCs ++ ',' :: name] = ([⟨uid, String.mk name, []⟩], none) := by
  have hp := parse_two_fields idCs name uid hid h1 h2
  refine ⟨hp, ?_⟩
  unfold importMulti
  rw [hp]
  rfl

/-- Claim C8 witness: the two-field line `9,carol`. -/
theorem two_field_line_accepted_witness :
    parseMultiLine (String.data "9,carol") = .ok ⟨9, "carol", []⟩ ∧
    importMulti [String.data "9,carol"] = ([⟨9, "carol", []⟩], none) := by
  have h := two_field_line_accepted (String.data "9") (String.data "carol") 9 rfl
    (by decide) (by decide)
  simpa using h

/-- Claim C10: timestamp fields are parsed as signed 64-bit integers — negative
values are accepted and give days before 1970-01-01, exactly the signed 64-bit
range is accepted, while the identifier field is unsigned and rejects a
negative value. -/
theorem timestamps_signed_64 :
    parseMultiLine (String.data "42,alice,-86400") = .ok ⟨42, "alice", [-1]⟩ ∧
    civilFromDays (-1) = (1969, 12, 31) ∧
    parseI64 (String.data "-9223372036854775808") = some (-(2 ^ 63)) ∧
    parseI64 (String.data "9223372036854775807") = some (2 ^ 63 - 1) ∧
    parseI64 (String.data "9223372036854775808") = none ∧
    parseMultiLine (String.data "42,alice,9223372036854775808") =
      .error (String.data "42,alice,9223372036854775808") ∧
    parseMultiLine (String.data "-1,alice,0") =
      .error (String.data "-1,alice,0") :=
  ⟨rfl, rfl, rfl, rfl, rfl, rfl, rfl⟩

/-! ### Claims about the batch behaviour of `ImportMulti` -/

/-- Claim C1 counterexample: in the multi-date path, a batch whose second line
is malformed still performs the `insert_pair` call for its first line — the
input is not parsed in full before records are merged, so the abort is not
all-or-nothing. -/
theorem importMulti_not_all_or_nothing :
    (importMulti [String.data "1,a,0", String.data "x"]).2 =
        some (String.data "x") ∧
    (importMulti [String.data "1,a,0", String.data "x"]).1 = [⟨1, "a", [0]⟩] :=
  ⟨rfl, rfl⟩

theorem importMulti_cons (l : List Char) (ls : List (List Char)) :
    importMulti (l :: ls) =
      match parseMultiLine l with
      | .error e => ([], some e)
      | .ok r => (r :: (importMulti ls).1, (importMulti ls).2) := rfl

theorem importMulti_append_ok (good tail : List (List Char))
    (hgood : ∀ l ∈ good, ∃ r, parseMultiLine l = .ok r) :
    importMulti (good ++ tail) =
      ((good.filterMap fun l => (parseMultiLine l).toOption) ++ (importMulti tail).1,
       (importMulti tail).2) := by
  induction good with
  | nil => rfl
  | cons g gs ih =>
    obtain ⟨r, hr⟩ := hgood g (List.mem_cons_self g gs)
    have ih' := ih fun l hl => hgood l (List.mem_cons_of_mem g hl)
    rw [List.cons_append, importMulti_cons, hr, ih']
    simp [Except.toOption, hr]

/-- Claim C1 (amended): the multi-date import is fail-fast but merges
streamingly, line by line — the first malformed line aborts the batch with an
error carrying that line, no later line is processed, and exactly the records
of the valid lines before the error have already been submitted to the store
when the abort happens. -/
theorem importMulti_fail_fast (good : List (List Char)) (bad : List Char)
    (rest : List (List Char))
    (hgood : ∀ l ∈ good, ∃ r, parseMultiLine l = .ok r)
    (hbad : ∀ r, parseMultiLine bad ≠ .ok r) :
    importMulti (good ++ bad :: rest) =
      (good.filterMap fun l => (parseMultiLine l).toOption, some bad) := by
  have hbe : parseMultiLine bad = .error bad := by
    rcases parseMultiLine_ok_or_error bad with ⟨r, hr⟩ | he
    · exact absurd hr (hbad r)
    · exact he
  rw [importMulti_append_ok good _ hgood, importMulti_cons, hbe]
  simp

/-- Claim C1 witness: a concrete batch where the line after the malformed one
is never reached, while the line before it has been merged. -/
theorem importMulti_fail_fast_witness :
    importMulti [String.data "1,a,0", String.data "x", String.data "2,b,0"] =
      ([⟨1, "a", [0]⟩], some (String.data "x")) := by
  have h := importMulti_fail_fast [String.data "1,a,0"] (String.data "x")
    [String.data "2,b,0"]
    (by
      intro l hl
      rw [List.mem_singleton] at hl
      subst hl
      exact ⟨⟨1, "a", [0]⟩, rfl⟩)
    (by
      intro r hr
      rw [show parseMultiLine (String.data "x") = .error (String.data "x") from rfl] at hr
      exact Except.noConfusion hr)
  simpa using h

/-! ### Lemmas about the modelled store and `Session::update` -/

theorem mem_merge (stored new : List Int) (d : Int) :
    d ∈ dedup (List.insertionSort (· ≤ ·) (stored ++ new)) ↔
      d ∈ stored ∨ d ∈ new := by
  rw [mem_dedup, List.mem_insertionSort, List.mem_append]

theorem insert_pair_mem (db : Store) (uid : Nat) (sn : String) (ds : List Int)
    (k : Nat × String) (d : Int) :
    d ∈ insert_pair db uid sn ds .Range k ↔
      d ∈ db k ∨ (k = (uid, sn) ∧ d ∈ ds) := by
  show d ∈ (if k = (uid, sn) then _ else db k) ↔ _
  by_cases hk : k = (uid, sn)
  · rw [if_pos hk, mem_merge]
    subst hk
    tauto
  · rw [if_neg hk]
    tauto

theorem insert_pair_untouched (db : Store) (uid : Nat) (sn : String)
    (ds : List Int) (k : Nat × String) (hk : k ≠ (uid, sn)) :
    insert_pair db uid sn ds .Range k = db k := by
  show (if k = (uid, sn) then _ else db k) = db k
  rw [if_neg hk]

theorem insert_pair_sorted_touched (db : Store) (uid : Nat) (sn : String)
    (ds : List Int) :
    (insert_pair db uid sn ds .Range (uid, sn)).Sorted (· < ·) := by
  show (if ((uid, sn) : Nat × String) = (uid, sn) then
      dedup (List.insertionSort (· ≤ ·) (db (uid, sn) ++ ds)) else _).Sorted (· < ·)
  rw [if_pos rfl]
  exact sorted_lt_sortDedup _

theorem update_mem (s : Session) (db : Store) (k : Nat × String) (d : Int) :
    d ∈ (Session.update s db .Range).1 k ↔
      d ∈ db k ∨ ∃ r ∈ s, k = (r.user_id, r.screen_name) ∧ d ∈ r.dates := by
  induction s generalizing db with
  | nil => simp [Session.update]
  | cons r rs ih =>
    show d ∈ (Session.update rs (insert_pair db r.user_id r.screen_name r.dates .Range) .Range).1 k ↔ _
    rw [ih, insert_pair_mem]
    simp only [List.mem_cons]
    constructor
    · rintro ((hdb | ⟨hk, hd⟩) | ⟨r', hr', hk', hd'⟩)
      · exact Or.inl hdb
      · exact Or.inr ⟨r, Or.inl rfl, hk, hd⟩
      · exact Or.inr ⟨r', Or.inr hr', hk', hd'⟩
    · rintro (hdb | ⟨r', (rfl | hr'), hk', hd'⟩)
      · exact Or.inl (Or.inl hdb)
      · exact Or.inl (Or.inr ⟨hk', hd'⟩)
      · exact Or.inr ⟨r', hr', hk', hd'⟩

theorem update_untouched (s : Session) (db : Store) (k : Nat × String)
    (hk : ∀ r ∈ s, k ≠ (r.user_id, r.screen_name)) :
    (Session.update s db .Range).1 k = db k := by
  induction s generalizing db with
  | nil => rfl
  | cons r rs ih =>
    show (Session.update rs (insert_pair db r.user_id r.screen_name r.dates .Range) .Range).1 k = db k
    rw [ih _ fun r' hr' => hk r' (List.mem_cons_of_mem r hr'),
      insert_pair_untouched _ _ _ _ _ (hk r (List.mem_cons_self r rs))]

theorem update_sorted_touched (s : Session) (db : Store) (k : Nat × String)
    (hk : ∃ r ∈ s, k = (r.user_id, r.screen_name)) :
    ((Session.update s db .Range).1 k).Sorted (· < ·) := by
  induction s generalizing db with
  | nil =>
    obtain ⟨r, hr, _⟩ := hk
    cases hr
  | cons r rs ih =>
    show ((Session.update rs (insert_pair db r.user_id r.screen_name r.dates .Range) .Range).1 k).Sorted (· < ·)
    by_cases hrs : ∃ r' ∈ rs, k = (r'.user_id, r'.screen_name)
    · exact ih _ hrs
    · have hne : ∀ r' ∈ rs, k ≠ (r'.user_id, r'.screen_name) := by
        intro r' hr' he
        exact hrs ⟨r', hr', he⟩
      have hr : k = (r.user_id, r.screen_name) := by
        obtain ⟨r', hr', hk'⟩ := hk
        rcases List.mem_cons.1 hr' with rfl | hmem
        · exact hk'
        · exact absurd hk' (hne r' hmem)
      rw [update_untouched rs _ k hne, hr]
      exact insert_pair_sorted_touched db r.user_id r.screen_name r.dates

theorem sorted_lt_ext (l m : List Int) (hl : l.Sorted (· < ·))
    (hm : m.Sorted (· < ·)) (h : ∀ d, d ∈ l ↔ d ∈ m) : l = m := by
  haveI : IsAntisymm Int (· < ·) := ⟨fun a b h1 h2 => absurd h2 (lt_asymm h1)⟩
  exact List.eq_of_perm_of_sorted
    ((List.perm_ext_iff_of_nodup hl.nodup hm.nodup).2 h) hl hm

/-- Claim C4: under `Range` mode, `Session::update` is additive and idempotent —
after a run, the stored date set of every key is the union of its pre-existing
dates and the dates submitted for it; the set stored for every submitted pair
has no duplicates; no previously recorded date is deleted; and re-running the
identical session against the resulting store leaves every key unchanged. -/
theorem update_range_idempotent (session : Session) (db : Store) :
    (∀ k, (Session.update session (Session.update session db .Range).1 .Range).1 k
        = (Session.update session db .Range).1 k) ∧
    (∀ k d, d ∈ (Session.update session db .Range).1 k ↔
        d ∈ db k ∨ ∃ r ∈ session, k = (r.user_id, r.screen_name) ∧ d ∈ r.dates) ∧
    (∀ r ∈ session,
      ((Session.update session db .Range).1 (r.user_id, r.screen_name)).Nodup) ∧
    (∀ k d, d ∈ db k → d ∈ (Session.update session db .Range).1 k) := by
  refine ⟨?_, fun k d => update_mem session db k d, ?_, ?_⟩
  · intro k
    by_cases hk : ∃ r ∈ session, k = (r.user_id, r.screen_name)
    · refine sorted_lt_ext _ _ (update_sorted_touched _ _ _ hk)
        (update_sorted_touched _ _ _ hk) ?_
      intro d
      rw [update_mem, update_mem]
      tauto
    · have hne : ∀ r ∈ session, k ≠ (r.user_id, r.screen_name) :=
        fun r hr he => hk ⟨r, hr, he⟩
      rw [update_untouched _ _ _ hne, update_untouched _ _ _ hne]
  · intro r hr
    exact (update_sorted_touched session db _ ⟨r, hr, rfl⟩).nodup
  · intro k d hd
    exact (update_mem session db k d).2 (Or.inl hd)

/-! ### Claim about the lookup reporting path -/

/-- Claim C9: the rendered lookup output lists the names sorted ascending by
their text value, and each rendered entry is some input entry's name together
with its date set — ascending, as `lookup_by_user_id` returns it — joined by
a comma and a space. -/
theorem renderLookup_sorted (result : List (String × List Int))
    (h : ∀ p ∈ result, p.2.Sorted (· < ·)) :
    ((renderLookup result).map Prod.fst).Sorted (· ≤ ·) ∧
    ∀ q ∈ renderLookup result, ∃ dates, (q.1, dates) ∈ result ∧
      dates.Sorted (· < ·) ∧
      q.2 = String.intercalate ", " (dates.map dateToString) := by
  constructor
  · have hs := List.sorted_insertionSort byName result
    unfold renderLookup
    rw [List.map_map]
    exact List.Pairwise.map _ (fun a b hab => hab) hs
  · intro q hq
    unfold renderLookup at hq
    rw [List.mem_map] at hq
    obtain ⟨p, hp, rfl⟩ := hq
    simp only [List.mem_insertionSort] at hp
    exact ⟨p.2, by simpa using hp, h p hp, rfl⟩

/-- Claim C9 witness: a two-name lookup result rendered in name order. -/
theorem renderLookup_sorted_witness :
    ((renderLookup [("b", [0]), ("a", [1, 2])]).map Prod.fst).Sorted (· ≤ ·) ∧
    ∀ q ∈ renderLookup [("b", [0]), ("a", [1, 2])], ∃ dates,
      (q.1, dates) ∈ ([("b", [0]), ("a", [1, 2])] : List (String × List Int)) ∧
      dates.Sorted (· < ·) ∧
      q.2 = String.intercalate ", " (dates.map dateToString) :=
  renderLookup_sorted [("b", [0]), ("a", [1, 2])] (by decide)
